import Mathlib

/-!
Verification development for the hyperliquid-node WebSocket gateway.

The Go sources are shallowly embedded: Go maps become association lists
(`List (K × V)` with first-match lookup), goroutine bodies become pure
functions on explicit state records, and external effects (JSON decoding,
HTTP fetches, channel sends) become explicit parameters or outcomes.
All definitions are executable; concrete states below are evaluated by
`decide`/`rfl`.
-/

namespace HL

/-- First-match lookup in an association list (Go map read). -/
def lookupA {K V : Type} [DecidableEq K] : List (K × V) → K → Option V
  | [], _ => none
  | (k', v) :: rest, k => if k' = k then some v else lookupA rest k

/-- Map read with the Go zero-value default. -/
def lookupD {K V : Type} [DecidableEq K] (l : List (K × V)) (k : K) (d : V) : V :=
  (lookupA l k).getD d

/-- Map assignment `m[k] = v`: replace the first binding of `k`, else append. -/
def insertA {K V : Type} [DecidableEq K] : List (K × V) → K → V → List (K × V)
  | [], k, v => [(k, v)]
  | (k', v') :: rest, k, v =>
    if k' = k then (k, v) :: rest else (k', v') :: insertA rest k v

/-- Map deletion `delete(m, k)`: drop the first binding of `k`. -/
def eraseKey {K V : Type} [DecidableEq K] : List (K × V) → K → List (K × V)
  | [], _ => []
  | (k', v') :: rest, k =>
    if k' = k then rest else (k', v') :: eraseKey rest k

/-! ## Subscription specs and keys (proxy/proxy.go, types) -/

/-- `types.SubscriptionRequest`: the subscription spec sent by clients. -/
structure SubscriptionRequest where
  type : String
  user : String := ""
  coin : String := ""
  interval : String := ""
  dex : String := ""
deriving DecidableEq

/-- `Proxy.createSubscriptionKey` (proxy.go:695-711): joins the non-empty
fields with `-`, type first, with no escaping. -/
def createSubscriptionKey (sub : SubscriptionRequest) : String :=
  sub.type
    ++ (if sub.user ≠ "" then "-" ++ sub.user else "")
    ++ (if sub.coin ≠ "" then "-" ++ sub.coin else "")
    ++ (if sub.interval ≠ "" then "-" ++ sub.interval else "")
    ++ (if sub.dex ≠ "" then "-" ++ sub.dex else "")

/-! ## Asset resolver (proxy/asset_fetcher.go) -/

/-- `AssetInfo` (asset_fetcher.go:15-22). -/
structure AssetInfo where
  index : Int
  name : String
  szDecimals : Int
  maxLeverage : Int := 0
  isSpot : Bool
  tokenIndex : Int := 0
deriving DecidableEq

/-- The three lookup tables of `AssetFetcher` (asset_fetcher.go:25-34). -/
structure AssetFetcherState where
  perpAssets : List (Int × AssetInfo)
  spotAssets : List (Int × AssetInfo)
  assetsByName : List (String × AssetInfo)
deriving DecidableEq

/-- One entry of the `meta` response universe (asset_fetcher.go:37-43). -/
structure MetaUniverseItem where
  name : String
  szDecimals : Int
  maxLeverage : Int
deriving DecidableEq

/-- One token of the `spotMeta` response (asset_fetcher.go:46-51). -/
structure SpotToken where
  name : String
  index : Int
  szDecimals : Int
deriving DecidableEq

/-- One pair of the `spotMeta` response universe (asset_fetcher.go:52-56). -/
structure SpotPair where
  name : String
  tokens : List Int
  index : Int
deriving DecidableEq

/-- The `spotMeta` response body. -/
structure SpotMetaResponse where
  tokens : List SpotToken
  univ : List SpotPair
deriving DecidableEq

/-- The record built for `metaResp.Universe[i]` (asset_fetcher.go:167-173). -/
def mkPerpInfo (i : Int) (it : MetaUniverseItem) : AssetInfo :=
  { index := i, name := it.name, szDecimals := it.szDecimals
    maxLeverage := it.maxLeverage, isSpot := false }

/-- The `for i, asset := range metaResp.Universe` loop of `fetchPerpetuals`
(asset_fetcher.go:164-178): assigns into the existing `perpAssets` and
`assetsByName` maps without clearing them. -/
def fetchPerpLoop : AssetFetcherState → Int → List MetaUniverseItem → AssetFetcherState
  | st, _, [] => st
  | st, i, it :: rest =>
    let info := mkPerpInfo i it
    fetchPerpLoop
      { st with perpAssets := insertA st.perpAssets i info
                assetsByName := insertA st.assetsByName it.name info } (i + 1) rest

/-- State effect of a successful `fetchPerpetuals` (asset_fetcher.go:138-185). -/
def fetchPerpetualsTables (st : AssetFetcherState) (univ : List MetaUniverseItem) :
    AssetFetcherState :=
  fetchPerpLoop st 0 univ

/-- Spot display-name rule (asset_fetcher.go:222-231): `NAME/USDC` for
token-1 pairs, `@index` for other non-0/1 leading tokens, else the raw name. -/
def spotPairName (tokenMap : List (Int × String)) (pair : SpotPair) : String :=
  if 2 ≤ pair.tokens.length then
    let t0 := pair.tokens.headD 0
    if t0 = 1 ∧ lookupD tokenMap 1 "" ≠ "" then lookupD tokenMap 1 "" ++ "/USDC"
    else if t0 ≠ 0 ∧ t0 ≠ 1 then "@" ++ toString pair.index
    else pair.name
  else pair.name

/-- The record built for a spot pair (asset_fetcher.go:233-239): spot ids
are `10000 + pair.Index`. -/
def mkSpotInfo (tokenMap : List (Int × String)) (pair : SpotPair) : AssetInfo :=
  { index := 10000 + pair.index, name := spotPairName tokenMap pair
    szDecimals := 0, isSpot := true, tokenIndex := pair.index }

/-- The `for _, pair := range spotResp.Universe` loop of `fetchSpotAssets`
(asset_fetcher.go:220-244): assigns into the existing maps. -/
def fetchSpotLoop (tokenMap : List (Int × String)) :
    AssetFetcherState → List SpotPair → AssetFetcherState
  | st, [] => st
  | st, pair :: rest =>
    let info := mkSpotInfo tokenMap pair
    fetchSpotLoop tokenMap
      { st with spotAssets := insertA st.spotAssets (10000 + pair.index) info
                assetsByName := insertA st.assetsByName info.name info } rest

/-- State effect of a successful `fetchSpotAssets` (asset_fetcher.go:188-258),
including the token-index lookup built at 213-217. -/
def fetchSpotAssetsTables (st : AssetFetcherState) (resp : SpotMetaResponse) :
    AssetFetcherState :=
  let tokenMap := resp.tokens.foldl (fun m t => insertA m t.index t.name) []
  fetchSpotLoop tokenMap st resp.univ

/-- `AssetFetcher.fetchAssets` (asset_fetcher.go:112-136): runs the
perpetuals fetch then the spot fetch under one lock; `none` models a fetch
or decode failure of the corresponding HTTP query (all table writes in the
source happen only after a successful decode). Returns the new state and
whether the whole refresh succeeded. -/
def fetchAssets (st : AssetFetcherState)
    (perpResp : Option (List MetaUniverseItem)) (spotResp : Option SpotMetaResponse) :
    AssetFetcherState × Bool :=
  match perpResp with
  | none => (st, false)
  | some u =>
    let st1 := fetchPerpetualsTables st u
    match spotResp with
    | none => (st1, false)
    | some sm => (fetchSpotAssetsTables st1 sm, true)

/-- `AssetFetcher.GetAssetByID` (asset_fetcher.go:260-276): perpetuals
table first, then the spot table, `none` if in neither. -/
def GetAssetByID (af : AssetFetcherState) (id : Int) : Option AssetInfo :=
  match lookupA af.perpAssets id with
  | some a => some a
  | none => lookupA af.spotAssets id

/-- `LocalNodeReader.getAssetSymbol` (local node reader, lines 559-590):
direct id lookup, then `10000 + id`, then the `@id` spot form for
`0 < id < 1000`, else the `ASSET_id` fallback. `none` models a reader
whose `assetFetcher` field is nil. -/
def getAssetSymbol (af : Option AssetFetcherState) (assetID : Int) : String :=
  match af with
  | none => "ASSET_" ++ toString assetID
  | some f =>
    match GetAssetByID f assetID with
    | some a => a.name
    | none =>
      match GetAssetByID f (10000 + assetID) with
      | some a => a.name
      | none =>
        if 0 < assetID ∧ assetID < 1000 then "@" ++ toString assetID
        else "ASSET_" ++ toString assetID

/-- The generic placeholder forms a symbol lookup can fall back to:
`@id` or `ASSET_id`. Used to state the resolver-fallback claims. -/
def genericPlaceholder (assetID : Int) (s : String) : Prop :=
  s = "@" ++ toString assetID ∨ s = "ASSET_" ++ toString assetID

instance (assetID : Int) (s : String) : Decidable (genericPlaceholder assetID s) := by
  unfold genericPlaceholder; infer_instance

/-! ## Synthetic trade derivation (local node reader, lines 879-959) -/

/-- `types.WsTrade` as populated by `processOrders`. -/
structure WsTrade where
  coin : String
  side : String
  px : String
  sz : String
  time : Int
  hash : String
  tid : Int
  users : String × String
deriving DecidableEq

/-- The `Order` action payload (local node reader, lines 464-476). -/
structure Order where
  asset : Int
  isBuy : Bool
  price : String
  size : String
  reduceOnly : Bool := false
  clientOrderID : String := ""
deriving DecidableEq

/-- The trade synthesized from one order by `processOrders` (lines 908-922):
coin from the resolver, side `"buy"` overwritten to `"sell"` when `!IsBuy`,
price and size copied verbatim, time from the block, tid generated
externally (`time.Now().UnixNano()`, passed in here). -/
def orderToTrade (af : Option AssetFetcherState) (blockTimeMs tid : Int)
    (userAddress : String) (order : Order) : WsTrade :=
  { coin := getAssetSymbol af order.asset
    side := if order.isBuy then "buy" else "sell"
    px := order.price
    sz := order.size
    time := blockTimeMs
    hash := order.clientOrderID
    tid := tid
    users := (userAddress, "") }

/-- Per-symbol caches of the local node reader (latestTrades ring and
latestPrices map). -/
structure NodeCache where
  latestTrades : List (String × List WsTrade)
  latestPrices : List (String × String)
deriving DecidableEq

/-- Cache update for one processed order (lines 924-941): append the trade
to the symbol's ring, keep the last 1000, set the latest price. -/
def storeTrade (cache : NodeCache) (trade : WsTrade) (price : String) : NodeCache :=
  let ring := (lookupD cache.latestTrades trade.coin []) ++ [trade]
  let ring := if 1000 < ring.length then ring.drop (ring.length - 1000) else ring
  { latestTrades := insertA cache.latestTrades trade.coin ring
    latestPrices := insertA cache.latestPrices trade.coin price }

/-- One iteration of the `for _, order := range orders` loop of
`processOrders` (lines 889-956). -/
def processOrder (af : Option AssetFetcherState) (blockTimeMs tid : Int)
    (userAddress : String) (cache : NodeCache) (order : Order) : NodeCache × WsTrade :=
  let trade := orderToTrade af blockTimeMs tid userAddress order
  (storeTrade cache trade order.price, trade)

/-! ## Hub and proxy registry (client/client.go, proxy/proxy.go) -/

/-- Sessions are identified by a numeric id; the Go code keys its sets by
the `*Client` pointer, which this id stands for. -/
abbrev SessionId := Nat

/-- `SubscriptionInfo` (proxy.go:35-40); `lastUpdate` is a wall-clock
timestamp with no behavioral role and is omitted. -/
structure SubscriptionInfo where
  subscription : SubscriptionRequest
  clients : List SessionId
  lastMessage : Option String := none
deriving DecidableEq

/-- Combined state of the Hub (client.go) and the proxy registry
(proxy.go). `sendFree` is the free capacity of each session's bounded
outbound queue (`client.Send`, capacity 256); `closedQueues` records
queues closed by `close(client.Send)`; `clientSubs` is each client's own
`Subscriptions` key set. -/
structure ProxyState where
  registry : List (String × SubscriptionInfo)
  useLocalNode : Bool
  hubClients : List SessionId
  closedQueues : List SessionId
  sendFree : List (SessionId × Nat)
  clientSubs : List (SessionId × List String)
deriving DecidableEq

/-- `Hub.Run`, `Register` case (client.go:101-105). -/
def hubRegister (c : SessionId) (st : ProxyState) : ProxyState :=
  if c ∈ st.hubClients then st else { st with hubClients := st.hubClients ++ [c] }

/-- `Hub.Run`, `Unregister` case (client.go:107-114): drop the session from
the active set and close its queue; nothing else is touched — in
particular the proxy's `globalSubscriptions` registry is not visible to
the Hub and is left unchanged. -/
def hubUnregister (c : SessionId) (st : ProxyState) : ProxyState :=
  if c ∈ st.hubClients then
    { st with hubClients := st.hubClients.erase c
              closedQueues := st.closedQueues ++ [c] }
  else st

/-- A non-blocking `select { case c.Send <- data: ... default: ... }`
attempt: succeeds iff the queue has a free slot, consuming one. -/
def trySend (free : List (SessionId × Nat)) (c : SessionId) :
    List (SessionId × Nat) × Bool :=
  let f := lookupD free c 0
  if 0 < f then (insertA free c (f - 1), true) else (free, false)

/-- Non-blocking delivery to each client of an entry in turn
(proxy.go:592-605); returns the clients whose send succeeded (the failed
ones are the `clientsToRemove` of the source). -/
def attemptDeliver (free : List (SessionId × Nat)) :
    List SessionId → List (SessionId × Nat) × List SessionId
  | [] => (free, [])
  | c :: cs =>
    let r1 := trySend free c
    let r2 := attemptDeliver r1.1 cs
    (r2.1, if r1.2 then c :: r2.2 else r2.2)

/-- Registry effect of `forwardMessageToClients` (proxy.go:576-629), with
the delivery pass and the `clientsToRemove` cleanup pass fused: every
entry whose spec type matches the channel gets its cached payload updated
and its unresponsive clients removed, and is deleted if left empty; other
entries are untouched. -/
def forwardRegistry (channel data : String) (free : List (SessionId × Nat)) :
    List (String × SubscriptionInfo) →
    List (SessionId × Nat) × List (String × SubscriptionInfo)
  | [] => (free, [])
  | (k, info) :: rest =>
    if info.subscription.type = channel then
      let r1 := attemptDeliver free info.clients
      let r2 := forwardRegistry channel data r1.1 rest
      if r1.2.isEmpty then r2
      else (r2.1, (k, { info with lastMessage := some data, clients := r1.2 }) :: r2.2)
    else
      let r2 := forwardRegistry channel data free rest
      (r2.1, (k, info) :: r2.2)

/-- `Proxy.forwardMessageToClients` (proxy.go:576-629). -/
def forwardMessageToClients (channel data : String) (st : ProxyState) : ProxyState :=
  let r := forwardRegistry channel data st.sendFree st.registry
  { st with registry := r.2, sendFree := r.1 }

/-- Go map-set insertion `m[c] = true`. -/
def insertClient (c : SessionId) (l : List SessionId) : List SessionId :=
  if c ∈ l then l else l ++ [c]

/-- Key-set insertion for a client's `Subscriptions` map. -/
def insertClient' (key : String) (l : List String) : List String :=
  if key ∈ l then l else l ++ [key]

/-- A frame sent back to one session (`sendErrorToClient`,
`SendMessage` of a subscriptionResponse or post reply). -/
structure Reply where
  target : SessionId
  isError : Bool
  body : String
deriving DecidableEq

/-- `Proxy.handleSubscribe` (proxy.go:331-399). `upstreamOk` is the outcome
of the asynchronous upstream `hlConnector.Subscribe` issued when a new
entry is created in remote mode; on failure the source rolls the new entry
back (proxy.go:362-373), so the registry ends without the key. The
client's own subscription set is updated unconditionally
(`c.AddSubscription`, proxy.go:383). -/
def handleSubscribe (c : SessionId) (sub : Option SubscriptionRequest)
    (upstreamOk : Bool) (st : ProxyState) : ProxyState × List Reply :=
  match sub with
  | none => (st, [{ target := c, isError := true, body := "Missing subscription details" }])
  | some sub =>
    let key := createSubscriptionKey sub
    match lookupA st.registry key with
    | some info =>
      let st1 := { st with
        registry := insertA st.registry key { info with clients := insertClient c info.clients }
        clientSubs := insertA st.clientSubs c
          (insertClient' key (lookupD st.clientSubs c [])) }
      (st1, [{ target := c, isError := false, body := "subscriptionResponse:subscribe" }])
    | none =>
      let newReg :=
        if st.useLocalNode ∨ upstreamOk then
          st.registry ++ [(key, { subscription := sub, clients := [c], lastMessage := none })]
        else st.registry
      let st1 := { st with
        registry := newReg
        clientSubs := insertA st.clientSubs c
          (insertClient' key (lookupD st.clientSubs c [])) }
      let errs :=
        if st.useLocalNode ∨ upstreamOk then []
        else [{ target := c, isError := true, body := "Failed to subscribe" }]
      (st1, errs ++ [{ target := c, isError := false, body := "subscriptionResponse:subscribe" }])

/-- `Proxy.handleUnsubscribe` (proxy.go:461-505): remove the session from
the entry, prune the entry when its set empties (issuing the upstream
unsubscribe, a pure side channel here), drop the key from the client's own
set, reply with a subscriptionResponse. -/
def handleUnsubscribe (c : SessionId) (sub : Option SubscriptionRequest)
    (st : ProxyState) : ProxyState × List Reply :=
  match sub with
  | none => (st, [{ target := c, isError := true, body := "Missing subscription details" }])
  | some sub =>
    let key := createSubscriptionKey sub
    let st1 :=
      match lookupA st.registry key with
      | some info =>
        let cs := info.clients.erase c
        if cs.isEmpty then { st with registry := eraseKey st.registry key }
        else { st with registry := insertA st.registry key { info with clients := cs } }
      | none => st
    let st2 := { st1 with
      clientSubs := insertA st1.clientSubs c
        ((lookupD st1.clientSubs c []).erase key) }
    (st2, [{ target := c, isError := false, body := "subscriptionResponse:unsubscribe" }])

/-- An inbound downstream frame after `json.Unmarshal` into
`types.WSMessage`: `malformed` is a failed unmarshal
(proxy.go:311-316), otherwise the decoded method and fields. -/
inductive ClientFrame where
  | malformed
  | frame (method : String) (subscription : Option SubscriptionRequest)
      (hasRequest : Bool) (id : Option Int)
deriving DecidableEq

/-- `Proxy.handlePostRequest` (proxy.go:507-550): replies on the post
channel (error replies for missing fields or local-node mode); never
touches the registry. `postReply` abstracts the upstream round-trip
result. -/
def handlePost (c : SessionId) (hasRequest : Bool) (id : Option Int)
    (postReply : String) (st : ProxyState) : ProxyState × List Reply :=
  match id, hasRequest with
  | some _, true =>
    if st.useLocalNode then
      (st, [{ target := c, isError := true, body := "POST requests not supported in local node mode" }])
    else
      (st, [{ target := c, isError := false, body := postReply }])
  | _, _ => (st, [{ target := c, isError := true, body := "Invalid POST request format" }])

/-- `Proxy.handleClientMessage` (proxy.go:307-329): malformed JSON replies
an error; known methods dispatch; an unknown method replies an error. -/
def handleClientMessage (c : SessionId) (f : ClientFrame) (upstreamOk : Bool)
    (postReply : String) (st : ProxyState) : ProxyState × List Reply :=
  match f with
  | .malformed => (st, [{ target := c, isError := true, body := "Invalid message format" }])
  | .frame method sub hasRequest id =>
    if method = "subscribe" then handleSubscribe c sub upstreamOk st
    else if method = "unsubscribe" then handleUnsubscribe c sub st
    else if method = "post" then handlePost c hasRequest id postReply st
    else (st, [{ target := c, isError := true, body := "Unknown method: " ++ method }])

/-- The operations that can touch the shared hub/registry state. -/
inductive ProxyOp where
  | register (c : SessionId)
  | unregister (c : SessionId)
  | clientMsg (c : SessionId) (f : ClientFrame) (upstreamOk : Bool) (postReply : String)
  | publish (channel : String) (data : String)
deriving DecidableEq

/-- State transition of one operation. -/
def stepOp (op : ProxyOp) (st : ProxyState) : ProxyState :=
  match op with
  | .register c => hubRegister c st
  | .unregister c => hubUnregister c st
  | .clientMsg c f ok pr => (handleClientMessage c f ok pr st).1
  | .publish ch d => forwardMessageToClients ch d st

/-- Run a sequence of operations. -/
def runOps (ops : List ProxyOp) (st : ProxyState) : ProxyState :=
  ops.foldl (fun s op => stepOp op s) st

/-- The initial state of a proxy in the given mode: empty registry, no
sessions. -/
def initState (useLocal : Bool) : ProxyState :=
  { registry := [], useLocalNode := useLocal, hubClients := []
    closedQueues := [], sendFree := [], clientSubs := [] }

/-- The emptiness invariant of the registry: no entry with an empty
session set. -/
def noEmptyEntries (st : ProxyState) : Prop :=
  ∀ p ∈ st.registry, (p.2 : SubscriptionInfo).clients ≠ []

/-! ## Incremental block-file reading (local node reader, lines 639-768) -/

/-- `strings.Split(content, "\n")`. -/
def splitOnNl : List Char → List (List Char)
  | [] => [[]]
  | c :: cs =>
    match splitOnNl cs with
    | [] => [[]]
    | l :: ls => if c = '\n' then [] :: l :: ls else (c :: l) :: ls

/-- ASCII whitespace as recognized by `strings.TrimSpace`. -/
def isSpaceChar (c : Char) : Bool :=
  c = ' ' || c = '\t' || c = '\n' || c = '\r' || c = '\x0b' || c = '\x0c'

/-- `strings.TrimSpace`. -/
def trimSpace (l : List Char) : List Char :=
  ((l.dropWhile isSpaceChar).reverse.dropWhile isSpaceChar).reverse

/-- The 100 MiB per-read cap (reader line 710). -/
def readCap : Nat := 100 * 1024 * 1024

/-- The per-line offset bookkeeping of the `for i, line := range lines`
loop of `readBlockFile` (lines 727-757), as the number of bytes the offset
advances. `parses` is the `json.Unmarshal` success oracle for a block
line; `skipLast` and `lastOk` are the two boundary conditions of lines 739
and 754 on the final (possibly unterminated) line. -/
def posLoop (parses : List Char → Bool) (skipLast lastOk : Bool) :
    List (List Char) → Nat
  | [] => 0
  | [line] =>
    let t := trimSpace line
    if t.isEmpty then 0
    else if skipLast then 0
    else if parses t && lastOk then t.length
    else 0
  | line :: rest =>
    let t := trimSpace line
    (if t.isEmpty then 0 else t.length + 1) + posLoop parses skipLast lastOk rest

/-- `readBlockFile` (lines 673-768) reduced to its offset effect: the new
stored offset for a file of `fileSize` bytes read from `fromPos`, where
`content` is the chunk the `file.Read` returned (so `bytesRead =
content.length`). Mirrors the early return for `stat.Size() <= fromPos`,
the 100 MiB cap, and the per-line loop. -/
def readBlockFilePos (parses : List Char → Bool) (fileSize fromPos : Nat)
    (content : List Char) : Nat :=
  if fileSize ≤ fromPos then fromPos
  else
    let remainingSize := min (fileSize - fromPos) readCap
    let bytesRead := content.length
    let skipLast := decide (bytesRead = remainingSize) && decide (fromPos + bytesRead < fileSize)
    let lastOk := decide (bytesRead < remainingSize) || decide (fileSize ≤ fromPos + bytesRead)
    fromPos + posLoop parses skipLast lastOk (splitOnNl content)

/-- One file's step of `scanBlockFiles` (lines 656-670): read the file iff
its stored offset is absent or smaller than the current size; the early
return of `readBlockFile` leaves the map unwritten. -/
def scanFileStep (parses : List Char → Bool) (stored : Option Nat)
    (fileSize : Nat) (content : List Char) : Option Nat :=
  let pos := stored.getD 0
  if stored.isNone ∨ pos < fileSize then
    if fileSize ≤ pos then stored
    else some (readBlockFilePos parses fileSize pos content)
  else stored

/-- The stored offset after a sequence of scan ticks, each observing a
file size and the chunk read at the stored offset. -/
def scanTicks (parses : List Char → Bool) (stored : Option Nat) :
    List (Nat × List Char) → Option Nat
  | [] => stored
  | (sz, content) :: rest =>
    scanTicks parses (scanFileStep parses stored sz content) rest

/-! ## Upstream connector request correlation (hyperliquid connector) -/

/-- The request-correlation fields of `Connector` (connector lines
338-341): the next request id and the ids with a live response slot in
`postRequests`. -/
structure ConnectorState where
  isConnected : Bool
  nextRequestID : Int
  postRequests : List Int
deriving DecidableEq

/-- How one `PostRequest` call ends. -/
inductive PostResult where
  | notConnected
  | sendError
  | gotResponse
  | timedOut
deriving DecidableEq

/-- The id assignment and slot creation of `Connector.PostRequest`
(connector lines 494-502): take `nextRequestID`, increment it, create the
response slot before anything is sent. -/
def postRequestAssign (c : ConnectorState) : Int × ConnectorState :=
  (c.nextRequestID,
   { c with nextRequestID := c.nextRequestID + 1
            postRequests := c.nextRequestID :: c.postRequests })

/-- The deferred slot teardown of `PostRequest` (connector lines 505-510),
run on every exit path. -/
def postRequestCleanup (c : ConnectorState) (id : Int) : ConnectorState :=
  { c with postRequests := c.postRequests.erase id }

/-- `Connector.PostRequest` (connector lines 488-533). `sendOk` is the
outcome of `sendMessage`; `gotResponse` abstracts a response arriving on
the slot before the 30 s timeout fires. Returns the final state, the call
outcome, and the assigned id when one was assigned. -/
def postRequest (c : ConnectorState) (sendOk gotResponse : Bool) :
    ConnectorState × PostResult × Option Int :=
  if c.isConnected then
    let (id, c1) := postRequestAssign c
    if sendOk then
      if gotResponse then (postRequestCleanup c1 id, .gotResponse, some id)
      else (postRequestCleanup c1 id, .timedOut, some id)
    else (postRequestCleanup c1 id, .sendError, some id)
  else (c, .notConnected, none)

/-- The ids assigned by a sequence of connected `PostRequest` calls. -/
def postRequestSeq (c : ConnectorState) : List (Bool × Bool) → List Int
  | [] => []
  | (s, g) :: rest =>
    let r := postRequest c s g
    match r.2.2 with
    | some id => id :: postRequestSeq r.1 rest
    | none => postRequestSeq r.1 rest

/-! ## Concrete states used by witnesses and counterexamples -/

/-- A spot pair record as the fetcher would build it. -/
def purrInfo : AssetInfo :=
  { index := 10005, name := "PURR/USDC", szDecimals := 0, isSpot := true, tokenIndex := 5 }

/-- Fetcher state whose spot table holds id 10005 only. -/
def afSpotOnly : AssetFetcherState :=
  { perpAssets := [], spotAssets := [(10005, purrInfo)]
    assetsByName := [("PURR/USDC", purrInfo)] }

/-- A perpetual record for BTC at id 0. -/
def btcInfo : AssetInfo :=
  { index := 0, name := "BTC", szDecimals := 5, maxLeverage := 50, isSpot := false }

/-- Fetcher state resolving id 0 to BTC. -/
def afBtc : AssetFetcherState :=
  { perpAssets := [(0, btcInfo)], spotAssets := [], assetsByName := [("BTC", btcInfo)] }

/-- Perp records of a first refresh. -/
def infoAAA : AssetInfo := mkPerpInfo 0 { name := "AAA", szDecimals := 1, maxLeverage := 10 }

/-- Second perp record of a first refresh. -/
def infoBBB : AssetInfo := mkPerpInfo 1 { name := "BBB", szDecimals := 2, maxLeverage := 20 }

/-- Fetcher state after a refresh that loaded two perpetuals. -/
def afTwoPerps : AssetFetcherState :=
  { perpAssets := [(0, infoAAA), (1, infoBBB)], spotAssets := []
    assetsByName := [("AAA", infoAAA), ("BBB", infoBBB)] }

/-- A later fetch whose universe has shrunk to a single instrument. -/
def shrunkUniverse : List MetaUniverseItem := [{ name := "XXX", szDecimals := 3, maxLeverage := 30 }]

/-- A trades spec for ETH. -/
def ethTradesSub : SubscriptionRequest := { type := "trades", coin := "ETH" }

/-- An allMids spec. -/
def allMidsSub : SubscriptionRequest := { type := "allMids" }

/-- Session 7 is subscribed to two entries of different channel types and
its outbound queue is full. -/
def fullQueueState : ProxyState :=
  { registry := [("trades-ETH", { subscription := ethTradesSub, clients := [7] }),
                 ("allMids", { subscription := allMidsSub, clients := [7] })]
    useLocalNode := false, hubClients := [7], closedQueues := []
    sendFree := [(7, 0)], clientSubs := [(7, ["trades-ETH", "allMids"])] }

/-- A connected connector with no pending request slots. -/
def freshConnector : ConnectorState :=
  { isConnected := true, nextRequestID := 1, postRequests := [] }

/-! ## Association-list lemmas -/

theorem lookupA_insertA_self {K V : Type} [DecidableEq K]
    (l : List (K × V)) (k : K) (v : V) : lookupA (insertA l k v) k = some v := by
  induction l with
  | nil => simp [insertA, lookupA]
  | cons hd tl ih =>
    obtain ⟨k', v'⟩ := hd
    by_cases h : k' = k <;> simp [insertA, lookupA, h, ih]

theorem lookupA_insertA_ne {K V : Type} [DecidableEq K]
    (l : List (K × V)) (k k' : K) (v : V) (h : k ≠ k') :
    lookupA (insertA l k v) k' = lookupA l k' := by
  induction l with
  | nil => simp [insertA, lookupA, h]
  | cons hd tl ih =>
    obtain ⟨k0, v0⟩ := hd
    by_cases h0 : k0 = k
    · simp [insertA, lookupA, h0, h]
    · by_cases h1 : k0 = k' <;> simp [insertA, lookupA, h0, h1, ih, Ne.symm h]

theorem lookupA_mem {K V : Type} [DecidableEq K]
    {l : List (K × V)} {k : K} {v : V} (h : lookupA l k = some v) : (k, v) ∈ l := by
  induction l with
  | nil => simp [lookupA] at h
  | cons hd tl ih =>
    obtain ⟨k0, v0⟩ := hd
    by_cases h0 : k0 = k
    · subst h0
      simp [lookupA] at h
      simp [h]
    · simp [lookupA, h0] at h
      exact List.mem_cons_of_mem _ (ih h)

theorem mem_insertA {K V : Type} [DecidableEq K]
    {l : List (K × V)} {k : K} {v : V} {p : K × V} (h : p ∈ insertA l k v) :
    p = (k, v) ∨ p ∈ l := by
  induction l with
  | nil =>
    simp [insertA] at h
    exact Or.inl h
  | cons hd tl ih =>
    obtain ⟨k0, v0⟩ := hd
    by_cases h0 : k0 = k
    · simp [insertA, h0] at h
      rcases h with h | h
      · exact Or.inl h
      · exact Or.inr (List.mem_cons_of_mem _ h)
    · simp [insertA, h0] at h
      rcases h with h | h
      · exact Or.inr (by simp [h])
      · rcases ih h with h' | h'
        · exact Or.inl h'
        · exact Or.inr (List.mem_cons_of_mem _ h')

theorem mem_eraseKey {K V : Type} [DecidableEq K]
    {l : List (K × V)} {k : K} {p : K × V} (h : p ∈ eraseKey l k) : p ∈ l := by
  induction l with
  | nil => simp [eraseKey] at h
  | cons hd tl ih =>
    obtain ⟨k0, v0⟩ := hd
    by_cases h0 : k0 = k
    · simp [eraseKey, h0] at h
      exact List.mem_cons_of_mem _ h
    · simp [eraseKey, h0] at h
      rcases h with h | h
      · simp [h]
      · exact List.mem_cons_of_mem _ (ih h)

theorem lookupA_append {K V : Type} [DecidableEq K]
    (l1 l2 : List (K × V)) (k : K) :
    lookupA (l1 ++ l2) k = ((lookupA l1 k).rec (lookupA l2 k) fun v => some v) := by
  induction l1 with
  | nil => simp [lookupA]
  | cons hd tl ih =>
    obtain ⟨k0, v0⟩ := hd
    by_cases h0 : k0 = k <;> simp [lookupA, h0, ih]

theorem lookupA_none_not_mem {K V : Type} [DecidableEq K]
    {l : List (K × V)} {k : K} (h : lookupA l k = none) (v : V) : (k, v) ∉ l := by
  induction l with
  | nil => simp
  | cons hd tl ih =>
    obtain ⟨k0, v0⟩ := hd
    by_cases h0 : k0 = k
    · simp [lookupA, h0] at h
    · simp [lookupA, h0] at h
      intro hmem
      rcases List.mem_cons.mp hmem with he | hm
      · exact h0 (congrArg Prod.fst he).symm
      · exact ih h hm

theorem eraseKey_append_of_none {K V : Type} [DecidableEq K]
    {l : List (K × V)} {k : K} (h : lookupA l k = none) (v : V) :
    eraseKey (l ++ [(k, v)]) k = l := by
  induction l with
  | nil => simp [eraseKey]
  | cons hd tl ih =>
    obtain ⟨k0, v0⟩ := hd
    by_cases h0 : k0 = k
    · simp [lookupA, h0] at h
    · simp [lookupA, h0] at h
      simp [eraseKey, h0, ih h]

/-! ## C10 -/

/-- C10: the key builder joins present fields with `-` without escaping, so
the distinct specs `{type:"t", user:"a-b"}` and `{type:"t", user:"a",
coin:"b"}` collide on the key `t-a-b`, and subscribing two sessions with
these two different specs lands them in one shared registry entry. -/
theorem subscription_key_collision :
    ({ type := "t", user := "a-b" } : SubscriptionRequest) ≠
      ({ type := "t", user := "a", coin := "b" } : SubscriptionRequest)
    ∧ createSubscriptionKey { type := "t", user := "a-b" } =
      createSubscriptionKey { type := "t", user := "a", coin := "b" }
    ∧ (handleSubscribe 2 (some { type := "t", user := "a", coin := "b" }) true
        (handleSubscribe 1 (some { type := "t", user := "a-b" }) true (initState true)).1).1.registry
      = [("t-a-b", { subscription := { type := "t", user := "a-b" }, clients := [1, 2] })] := by
  refine ⟨by decide, by decide, by decide⟩

/-! ## C5 -/

/-- C5: a decoded order action with asset id `a`, buy flag `b`, price `p`
and size `s`, where the resolver maps `a` to `sym`, synthesizes a trade
with coin `sym`, side `"buy"`/`"sell"` from the flag, and `px`/`sz` copied
verbatim. -/
theorem order_trade_derivation (af : Option AssetFetcherState) (a : Int) (b : Bool)
    (p s : String) (sym : String) (t tid : Int) (u : String)
    (h : getAssetSymbol af a = sym) :
    (orderToTrade af t tid u { asset := a, isBuy := b, price := p, size := s }).coin = sym
    ∧ (orderToTrade af t tid u { asset := a, isBuy := b, price := p, size := s }).side
        = (if b then "buy" else "sell")
    ∧ (orderToTrade af t tid u { asset := a, isBuy := b, price := p, size := s }).px = p
    ∧ (orderToTrade af t tid u { asset := a, isBuy := b, price := p, size := s }).sz = s := by
  simp [orderToTrade, h]

/-- The spec's concrete instance: order `{asset:0, b:true, p:"100.5",
s:"2.0"}` with symbol(0)="BTC" yields trade `{coin:"BTC", side:"buy",
px:"100.5", sz:"2.0"}`. -/
theorem order_trade_derivation_witness :
    (orderToTrade (some afBtc) 1700000000000 42 "0xabc"
        { asset := 0, isBuy := true, price := "100.5", size := "2.0" }).coin = "BTC"
    ∧ (orderToTrade (some afBtc) 1700000000000 42 "0xabc"
        { asset := 0, isBuy := true, price := "100.5", size := "2.0" }).side
        = (if true then "buy" else "sell")
    ∧ (orderToTrade (some afBtc) 1700000000000 42 "0xabc"
        { asset := 0, isBuy := true, price := "100.5", size := "2.0" }).px = "100.5"
    ∧ (orderToTrade (some afBtc) 1700000000000 42 "0xabc"
        { asset := 0, isBuy := true, price := "100.5", size := "2.0" }).sz = "2.0" :=
  order_trade_derivation (some afBtc) 0 true "100.5" "2.0" "BTC" 1700000000000 42 "0xabc"
    (by decide)

/-! ## C7 -/

/-- C7 counterexample: id 5 is present in neither lookup table of
`afSpotOnly`, yet the resolver's symbol lookup returns the real spot name
`PURR/USDC` — not a generic placeholder — because `getAssetSymbol` retries
the lookup at `10000 + id` before falling back. -/
theorem asset_lookup_fallback_cex :
    lookupA afSpotOnly.perpAssets 5 = none
    ∧ lookupA afSpotOnly.spotAssets 5 = none
    ∧ getAssetSymbol (some afSpotOnly) 5 = "PURR/USDC"
    ∧ ¬ genericPlaceholder 5 (getAssetSymbol (some afSpotOnly) 5) := by
  refine ⟨by decide, by decide, by decide, by decide⟩

/-- C7 (amended): `GetAssetByID` checks the non-spot table first and falls
through to the spot table; an id missing from both tables is retried at
the spot offset `10000 + id`, and only when that also misses does the
resolver return a generic placeholder (`@id` for `0 < id < 1000`, else
`ASSET_id`) — it never fails. -/
theorem asset_lookup_fallback (af : AssetFetcherState) (id : Int)
    (h1 : lookupA af.perpAssets id = none)
    (h2 : lookupA af.spotAssets id = none)
    (h3 : lookupA af.perpAssets (10000 + id) = none)
    (h4 : lookupA af.spotAssets (10000 + id) = none) :
    genericPlaceholder id (getAssetSymbol (some af) id)
    ∧ (∀ g : AssetFetcherState, ∀ j : Int, ∀ v,
        lookupA g.perpAssets j = some v → GetAssetByID g j = some v)
    ∧ (∀ g : AssetFetcherState, ∀ j : Int,
        lookupA g.perpAssets j = none → GetAssetByID g j = lookupA g.spotAssets j) := by
  refine ⟨?_, ?_, ?_⟩
  · simp only [getAssetSymbol, GetAssetByID, h1, h2, h3, h4]
    by_cases h : 0 < id ∧ id < 1000
    · simp only [h, if_pos]
      exact Or.inl rfl
    · simp only [h, if_neg, not_false_iff]
      exact Or.inr rfl
  · intro g j v hv
    simp [GetAssetByID, hv]
  · intro g j hn
    simp [GetAssetByID, hn]

/-- C7 witness: id 7 misses every table of `afSpotOnly` (including at the
spot offset) and resolves to the placeholder `@7`. -/
theorem asset_lookup_fallback_witness :
    genericPlaceholder 7 (getAssetSymbol (some afSpotOnly) 7)
    ∧ (∀ g : AssetFetcherState, ∀ j : Int, ∀ v,
        lookupA g.perpAssets j = some v → GetAssetByID g j = some v)
    ∧ (∀ g : AssetFetcherState, ∀ j : Int,
        lookupA g.perpAssets j = none → GetAssetByID g j = lookupA g.spotAssets j) :=
  asset_lookup_fallback afSpotOnly 7 (by decide) (by decide) (by decide) (by decide)

/-! ## C8 -/

/-- C8: an inbound frame that fails to decode, or decodes to an unknown
method, produces exactly one error reply addressed to that session and
leaves the whole proxy state (registry entries, session sets, per-client
subscription sets) unchanged. -/
theorem malformed_frame_isolated (st : ProxyState) (c : SessionId) (f : ClientFrame)
    (ok : Bool) (pr : String)
    (h : f = ClientFrame.malformed ∨
         ∃ m sub hr id, f = ClientFrame.frame m sub hr id ∧
           m ≠ "subscribe" ∧ m ≠ "unsubscribe" ∧ m ≠ "post") :
    (handleClientMessage c f ok pr st).1 = st
    ∧ (handleClientMessage c f ok pr st).2.length = 1
    ∧ ∀ r ∈ (handleClientMessage c f ok pr st).2, r.target = c ∧ r.isError = true := by
  rcases h with h | ⟨m, sub, hr, id, hf, h1, h2, h3⟩
  · subst h
    simp [handleClientMessage]
  · subst hf
    simp [handleClientMessage, h1, h2, h3]

/-- C8 witness: a malformed frame from session 3 against a populated
state. -/
theorem malformed_frame_isolated_witness :
    (handleClientMessage 3 ClientFrame.malformed true "r" fullQueueState).1 = fullQueueState
    ∧ (handleClientMessage 3 ClientFrame.malformed true "r" fullQueueState).2.length = 1
    ∧ ∀ r ∈ (handleClientMessage 3 ClientFrame.malformed true "r" fullQueueState).2,
        r.target = 3 ∧ r.isError = true :=
  malformed_frame_isolated fullQueueState 3 ClientFrame.malformed true "r" (Or.inl rfl)

/-! ## C9 -/

theorem postRequest_state_of_connected (c : ConnectorState) (s g : Bool)
    (h : c.isConnected = true) :
    (postRequest c s g).1 = { c with nextRequestID := c.nextRequestID + 1 }
    ∧ (postRequest c s g).2.2 = some c.nextRequestID := by
  cases s <;> cases g <;>
    simp [postRequest, h, postRequestAssign, postRequestCleanup, List.erase_cons_head]

theorem postRequest_state_of_disconnected (c : ConnectorState) (s g : Bool)
    (h : c.isConnected = false) :
    postRequest c s g = (c, PostResult.notConnected, none) := by
  simp [postRequest, h]

theorem postRequestSeq_lb (calls : List (Bool × Bool)) :
    ∀ c : ConnectorState, ∀ id ∈ postRequestSeq c calls, c.nextRequestID ≤ id := by
  induction calls with
  | nil => intro c id h; simp [postRequestSeq] at h
  | cons hd tl ih =>
    intro c id h
    obtain ⟨s, g⟩ := hd
    by_cases hc : c.isConnected = true
    · obtain ⟨h1, h2⟩ := postRequest_state_of_connected c s g hc
      simp only [postRequestSeq, h1, h2] at h
      rcases List.mem_cons.mp h with he | hm
      · exact le_of_eq he.symm
      · have := ih _ id hm
        simp only at this
        omega
    · have hc' : c.isConnected = false := by
        cases hcc : c.isConnected
        · rfl
        · exact absurd hcc hc
      simp only [postRequestSeq, postRequest_state_of_disconnected c s g hc'] at h
      exact ih c id h

theorem postRequestSeq_pairwise (calls : List (Bool × Bool)) :
    ∀ c : ConnectorState, List.Pairwise (· < ·) (postRequestSeq c calls) := by
  induction calls with
  | nil => intro c; simp [postRequestSeq]
  | cons hd tl ih =>
    intro c
    obtain ⟨s, g⟩ := hd
    by_cases hc : c.isConnected = true
    · obtain ⟨h1, h2⟩ := postRequest_state_of_connected c s g hc
      simp only [postRequestSeq, h1, h2]
      refine List.pairwise_cons.mpr ⟨?_, ih _⟩
      intro j hj
      have := postRequestSeq_lb tl _ j hj
      simp only at this
      omega
    · have hc' : c.isConnected = false := by
        cases hcc : c.isConnected
        · rfl
        · exact absurd hcc hc
      simp only [postRequestSeq, postRequest_state_of_disconnected c s g hc']
      exact ih c

/-- C9: a connected `PostRequest` call assigns the current
`nextRequestID`, increments it, registers the response slot before the
send step, and has removed the slot from the pending map by the time it
returns on any path (response, send error, or timeout); across any
sequence of calls the assigned ids are strictly increasing, so each id is
strictly greater than every previously assigned one. -/
theorem post_request_correlation (c : ConnectorState) (sendOk gotResp : Bool)
    (hconn : c.isConnected = true) :
    (postRequest c sendOk gotResp).2.2 = some c.nextRequestID
    ∧ (postRequest c sendOk gotResp).1.nextRequestID = c.nextRequestID + 1
    ∧ (postRequestAssign c).1 ∈ (postRequestAssign c).2.postRequests
    ∧ (postRequest c sendOk gotResp).1.postRequests = c.postRequests
    ∧ ∀ calls : List (Bool × Bool), List.Pairwise (· < ·) (postRequestSeq c calls) := by
  obtain ⟨h1, h2⟩ := postRequest_state_of_connected c sendOk gotResp hconn
  refine ⟨h2, ?_, ?_, ?_, fun calls => postRequestSeq_pairwise calls c⟩
  · rw [h1]
  · simp [postRequestAssign]
  · rw [h1]

/-- C9 witness: a fresh connected connector, successful send, response
before timeout. -/
theorem post_request_correlation_witness :
    (postRequest freshConnector true true).2.2 = some freshConnector.nextRequestID
    ∧ (postRequest freshConnector true true).1.nextRequestID = freshConnector.nextRequestID + 1
    ∧ (postRequestAssign freshConnector).1 ∈ (postRequestAssign freshConnector).2.postRequests
    ∧ (postRequest freshConnector true true).1.postRequests = freshConnector.postRequests
    ∧ ∀ calls : List (Bool × Bool), List.Pairwise (· < ·) (postRequestSeq freshConnector calls) :=
  post_request_correlation freshConnector true true rfl

/-! ## C6 -/

/-- C6: starting from a state with no registry entry for the spec's key,
subscribing a session and then unsubscribing it (in either source mode,
whatever the upstream subscribe outcome) leaves no registry entry for that
key. -/
theorem subscribe_unsubscribe_roundtrip (st : ProxyState) (c : SessionId)
    (sub : SubscriptionRequest) (upstreamOk : Bool)
    (h : lookupA st.registry (createSubscriptionKey sub) = none) :
    lookupA ((handleUnsubscribe c (some sub)
        (handleSubscribe c (some sub) upstreamOk st).1).1).registry
      (createSubscriptionKey sub) = none := by
  have hreg1 :
      (handleSubscribe c (some sub) upstreamOk st).1.registry =
        if st.useLocalNode = true ∨ upstreamOk = true then
          st.registry ++ [(createSubscriptionKey sub,
            { subscription := sub, clients := [c], lastMessage := none })]
        else st.registry := by
    simp [handleSubscribe, h]
  by_cases hmode : st.useLocalNode = true ∨ upstreamOk = true
  · have hlk : lookupA (handleSubscribe c (some sub) upstreamOk st).1.registry
        (createSubscriptionKey sub) =
        some { subscription := sub, clients := [c], lastMessage := none } := by
      rw [hreg1, if_pos hmode, lookupA_append, h]
      simp [lookupA]
    have hfin : ((handleUnsubscribe c (some sub)
        (handleSubscribe c (some sub) upstreamOk st).1).1).registry = st.registry := by
      simp only [handleUnsubscribe, hlk, List.erase_cons_head, List.isEmpty_nil, if_pos]
      rw [hreg1, if_pos hmode]
      exact eraseKey_append_of_none h _
    rw [hfin]
    exact h
  · have hr1 : (handleSubscribe c (some sub) upstreamOk st).1.registry = st.registry := by
      rw [hreg1, if_neg hmode]
    have hlk : lookupA (handleSubscribe c (some sub) upstreamOk st).1.registry
        (createSubscriptionKey sub) = none := by rw [hr1]; exact h
    have hfin : ((handleUnsubscribe c (some sub)
        (handleSubscribe c (some sub) upstreamOk st).1).1).registry = st.registry := by
      simp only [handleUnsubscribe, hlk]
      exact hr1
    rw [hfin]
    exact h

/-- C6 witness: session 3 subscribes to the ETH trades spec on a fresh
local-mode proxy and unsubscribes again. -/
theorem subscribe_unsubscribe_roundtrip_witness :
    lookupA ((handleUnsubscribe 3 (some ethTradesSub)
        (handleSubscribe 3 (some ethTradesSub) true (initState true)).1).1).registry
      (createSubscriptionKey ethTradesSub) = none :=
  subscribe_unsubscribe_roundtrip (initState true) 3 ethTradesSub true (by decide)

/-! ## C4 -/

theorem fetchPerpLoop_perp_lookup_lt (u : List MetaUniverseItem) :
    ∀ (st : AssetFetcherState) (i id : Int), id < i →
      lookupA (fetchPerpLoop st i u).perpAssets id = lookupA st.perpAssets id := by
  induction u with
  | nil => intro st i id _; rfl
  | cons it rest ih =>
    intro st i id hlt
    simp only [fetchPerpLoop]
    rw [ih _ (i + 1) id (by omega)]
    exact lookupA_insertA_ne _ _ _ _ (by omega)

theorem fetchPerpLoop_perp_lookup_ge (u : List MetaUniverseItem) :
    ∀ (st : AssetFetcherState) (i id : Int), i + u.length ≤ id →
      lookupA (fetchPerpLoop st i u).perpAssets id = lookupA st.perpAssets id := by
  induction u with
  | nil => intro st i id _; rfl
  | cons it rest ih =>
    intro st i id hge
    simp only [List.length_cons] at hge
    simp only [fetchPerpLoop]
    rw [ih _ (i + 1) id (by push_cast at hge ⊢; omega)]
    exact lookupA_insertA_ne _ _ _ _ (by push_cast at hge; omega)

theorem fetchPerpLoop_perp_lookup_at (u : List MetaUniverseItem) :
    ∀ (st : AssetFetcherState) (i : Int) (j : Nat) (hj : j < u.length),
      lookupA (fetchPerpLoop st i u).perpAssets (i + j)
        = some (mkPerpInfo (i + j) (u.get ⟨j, hj⟩)) := by
  induction u with
  | nil => intro st i j hj; exact absurd hj (by simp)
  | cons it rest ih =>
    intro st i j hj
    cases j with
    | zero =>
      simp only [fetchPerpLoop, List.get]
      rw [fetchPerpLoop_perp_lookup_lt rest _ (i + 1) _ (by push_cast; omega)]
      simpa using lookupA_insertA_self st.perpAssets i (mkPerpInfo i it)
    | succ j' =>
      have hj' : j' < rest.length := by simpa using Nat.lt_of_succ_lt_succ hj
      have hcast : i + ((j' + 1 : Nat) : Int) = (i + 1) + (j' : Nat) := by push_cast; ring
      simp only [fetchPerpLoop, List.get]
      rw [hcast, ih _ (i + 1) j' hj']

/-- C4 (amended): on a successful refresh the fetched records are merged
into the existing tables — every id assigned by the new fetch maps to its
new record, while an id outside the new fetch keeps its previous record
(no wholesale replacement); a perpetuals fetch failure leaves the state
exactly as before; a spot fetch failure after a successful perpetuals
fetch retains the perpetuals merge. -/
theorem asset_refresh_merge (st : AssetFetcherState) (u : List MetaUniverseItem)
    (sm : SpotMetaResponse) (id : Int) (j : Nat)
    (hid : id < 0 ∨ (u.length : Int) ≤ id) (hj : j < u.length) :
    fetchAssets st none (some sm) = (st, false)
    ∧ fetchAssets st none none = (st, false)
    ∧ fetchAssets st (some u) none = (fetchPerpetualsTables st u, false)
    ∧ lookupA (fetchPerpetualsTables st u).perpAssets id = lookupA st.perpAssets id
    ∧ lookupA (fetchPerpetualsTables st u).perpAssets (j : Int)
        = some (mkPerpInfo (j : Int) (u.get ⟨j, hj⟩)) := by
  refine ⟨rfl, rfl, rfl, ?_, ?_⟩
  · rcases hid with hid | hid
    · exact fetchPerpLoop_perp_lookup_lt u st 0 id (by omega)
    · exact fetchPerpLoop_perp_lookup_ge u st 0 id (by omega)
  · have := fetchPerpLoop_perp_lookup_at u st 0 j hj
    simpa using this

/-- C4 witness: the two-perpetual state refreshed with a one-instrument
universe: id 5 (in no fetch) keeps its old lookup, id 0 gets the new
record. -/
theorem asset_refresh_merge_witness :
    fetchAssets afTwoPerps none (some { tokens := [], univ := [] }) = (afTwoPerps, false)
    ∧ fetchAssets afTwoPerps none none = (afTwoPerps, false)
    ∧ fetchAssets afTwoPerps (some shrunkUniverse) none
        = (fetchPerpetualsTables afTwoPerps shrunkUniverse, false)
    ∧ lookupA (fetchPerpetualsTables afTwoPerps shrunkUniverse).perpAssets 5
        = lookupA afTwoPerps.perpAssets 5
    ∧ lookupA (fetchPerpetualsTables afTwoPerps shrunkUniverse).perpAssets ((0 : Nat) : Int)
        = some (mkPerpInfo ((0 : Nat) : Int) (shrunkUniverse.get ⟨0, by decide⟩)) :=
  asset_refresh_merge afTwoPerps shrunkUniverse { tokens := [], univ := [] } 5 0
    (Or.inr (by decide)) (by decide)

/-- C4 counterexample: a successful refresh whose new universe holds a
single instrument named `XXX` still leaves the previous record `BBB` (id
1) in the perpetuals table, although no record of the new fetch carries
that id or name — so the tables are not replaced wholesale. -/
theorem asset_refresh_merge_cex :
    (fetchAssets afTwoPerps (some shrunkUniverse) (some { tokens := [], univ := [] })).2 = true
    ∧ lookupA (fetchAssets afTwoPerps (some shrunkUniverse)
        (some { tokens := [], univ := [] })).1.perpAssets 1 = some infoBBB
    ∧ ∀ it ∈ shrunkUniverse, it.name ≠ infoBBB.name := by
  refine ⟨by decide, by decide, by decide⟩

/-! ## C1 -/

theorem lookupD_trySend_of_zero (free : List (SessionId × Nat)) (x c : SessionId)
    (h : lookupD free c 0 = 0) : lookupD (trySend free x).1 c 0 = 0 := by
  by_cases hx : 0 < lookupD free x 0
  · by_cases hxc : x = c
    · subst hxc
      rw [h] at hx
      omega
    · simp only [trySend, if_pos hx]
      unfold lookupD
      rw [lookupA_insertA_ne free x c _ hxc]
      exact h
  · simp only [trySend, if_neg hx]
    exact h

theorem trySend_snd_of_zero (free : List (SessionId × Nat)) (c : SessionId)
    (h : lookupD free c 0 = 0) : (trySend free c).2 = false := by
  simp [trySend, h]

theorem attemptDeliver_of_zero (cs : List SessionId) :
    ∀ (free : List (SessionId × Nat)) (c : SessionId), lookupD free c 0 = 0 →
      lookupD (attemptDeliver free cs).1 c 0 = 0 ∧ c ∉ (attemptDeliver free cs).2 := by
  induction cs with
  | nil =>
    intro free c h
    exact ⟨h, by simp [attemptDeliver]⟩
  | cons x cs ih =>
    intro free c h
    have h1 := lookupD_trySend_of_zero free x c h
    obtain ⟨h2, h3⟩ := ih (trySend free x).1 c h1
    refine ⟨by simpa [attemptDeliver] using h2, ?_⟩
    simp only [attemptDeliver]
    by_cases hok : (trySend free x).2 = true
    · have hxc : x ≠ c := by
        intro he
        subst he
        rw [trySend_snd_of_zero free x h] at hok
        exact Bool.false_ne_true hok
      simp [hok, h3, Ne.symm hxc]
    · simp [hok, h3]

theorem forwardRegistry_no_full (ch d : String) (entries : List (String × SubscriptionInfo)) :
    ∀ (free : List (SessionId × Nat)) (c : SessionId), lookupD free c 0 = 0 →
      lookupD (forwardRegistry ch d free entries).1 c 0 = 0 ∧
      ∀ p ∈ (forwardRegistry ch d free entries).2,
        p.2.subscription.type = ch → c ∉ p.2.clients := by
  induction entries with
  | nil =>
    intro free c h
    exact ⟨h, by simp [forwardRegistry]⟩
  | cons e rest ih =>
    obtain ⟨k, info⟩ := e
    intro free c h
    by_cases hty : info.subscription.type = ch
    · have ha := attemptDeliver_of_zero info.clients free c h
      obtain ⟨ih1, ih2⟩ := ih (attemptDeliver free info.clients).1 c ha.1
      by_cases hk : (attemptDeliver free info.clients).2.isEmpty = true
      · constructor
        · simp only [forwardRegistry, if_pos hty, hk, if_pos]
          exact ih1
        · simp only [forwardRegistry, if_pos hty, hk, if_pos]
          exact ih2
      · constructor
        · simp only [forwardRegistry, if_pos hty, hk]
          simpa using ih1
        · simp only [forwardRegistry, if_pos hty, hk]
          intro p hp hpty
          simp only [Bool.false_eq_true, if_false] at hp
          rcases List.mem_cons.mp hp with he | hm
          · subst he
            simpa using ha.2
          · exact ih2 p hm hpty
    · obtain ⟨ih1, ih2⟩ := ih free c h
      constructor
      · simp only [forwardRegistry, if_neg hty]
        exact ih1
      · simp only [forwardRegistry, if_neg hty]
        intro p hp hpty
        rcases List.mem_cons.mp hp with he | hm
        · subst he
          exact absurd hpty hty
        · exact ih2 p hm hpty

theorem forwardRegistry_lookup_nonmatching (ch d : String)
    (entries : List (String × SubscriptionInfo)) :
    ∀ (free : List (SessionId × Nat)) (k : String) (info : SubscriptionInfo),
      lookupA entries k = some info → info.subscription.type ≠ ch →
      lookupA (forwardRegistry ch d free entries).2 k = some info := by
  induction entries with
  | nil =>
    intro free k info h _
    simp [lookupA] at h
  | cons e rest ih =>
    obtain ⟨k0, i0⟩ := e
    intro free k info h hty
    by_cases hk0 : k0 = k
    · subst hk0
      have hi : i0 = info := by simpa [lookupA] using h
      subst hi
      simp only [forwardRegistry, if_neg hty]
      simp [lookupA]
    · have h' : lookupA rest k = some info := by simpa [lookupA, hk0] using h
      by_cases hty0 : i0.subscription.type = ch
      · by_cases hk : (attemptDeliver free i0.clients).2.isEmpty = true
        · simp only [forwardRegistry, if_pos hty0, hk, if_pos]
          exact ih _ k info h' hty
        · simp only [forwardRegistry, if_pos hty0, hk, Bool.false_eq_true, if_false]
          simp only [lookupA, if_neg hk0]
          exact ih _ k info h' hty
      · simp only [forwardRegistry, if_neg hty0]
        simp only [lookupA, if_neg hk0]
        exact ih _ k info h' hty

/-- C1 (amended): the publisher delivers with a non-blocking send; a
session whose queue is full at delivery is removed only from the entries
of the published channel type (where delivery failed) — it is not passed
through the unregister path: its queue is not closed, it stays in the
hub's active set, and it keeps its membership in entries of other channel
types, whose registrations (and cached payloads) are untouched. -/
theorem publish_backpressure_scope (st : ProxyState) (ch d : String) (c : SessionId)
    (hfull : lookupD st.sendFree c 0 = 0) :
    (∀ p ∈ (forwardMessageToClients ch d st).registry,
        p.2.subscription.type = ch → c ∉ p.2.clients)
    ∧ (∀ (k : String) (info : SubscriptionInfo),
        lookupA st.registry k = some info → info.subscription.type ≠ ch →
        lookupA (forwardMessageToClients ch d st).registry k = some info)
    ∧ (forwardMessageToClients ch d st).hubClients = st.hubClients
    ∧ (forwardMessageToClients ch d st).closedQueues = st.closedQueues
    ∧ (forwardMessageToClients ch d st).clientSubs = st.clientSubs := by
  refine ⟨?_, ?_, rfl, rfl, rfl⟩
  · exact (forwardRegistry_no_full ch d st.registry st.sendFree c hfull).2
  · intro k info hk hty
    exact forwardRegistry_lookup_nonmatching ch d st.registry st.sendFree k info hk hty

/-- C1 witness: session 7 with a full queue, a publish on `trades`. -/
theorem publish_backpressure_scope_witness :
    (∀ p ∈ (forwardMessageToClients "trades" "payload" fullQueueState).registry,
        p.2.subscription.type = "trades" → 7 ∉ p.2.clients)
    ∧ (∀ (k : String) (info : SubscriptionInfo),
        lookupA fullQueueState.registry k = some info → info.subscription.type ≠ "trades" →
        lookupA (forwardMessageToClients "trades" "payload" fullQueueState).registry k = some info)
    ∧ (forwardMessageToClients "trades" "payload" fullQueueState).hubClients
        = fullQueueState.hubClients
    ∧ (forwardMessageToClients "trades" "payload" fullQueueState).closedQueues
        = fullQueueState.closedQueues
    ∧ (forwardMessageToClients "trades" "payload" fullQueueState).clientSubs
        = fullQueueState.clientSubs :=
  publish_backpressure_scope fullQueueState "trades" "payload" 7 (by decide)

/-- C1 counterexample: session 7's queue is full when `trades` is
published, yet afterwards it is still a member of the `allMids` entry,
still in the hub's active set, and its queue has not been closed — the
claimed removal from every entry and teardown via the unregister path do
not happen. -/
theorem publish_backpressure_scope_cex :
    lookupD fullQueueState.sendFree 7 0 = 0
    ∧ lookupA (forwardMessageToClients "trades" "payload" fullQueueState).registry "allMids"
        = some { subscription := allMidsSub, clients := [7], lastMessage := none }
    ∧ (7 : SessionId) ∈ (forwardMessageToClients "trades" "payload" fullQueueState).hubClients
    ∧ (7 : SessionId) ∉ (forwardMessageToClients "trades" "payload" fullQueueState).closedQueues := by
  refine ⟨by decide, by decide, by decide, by decide⟩

/-! ## C3 -/

theorem insertClient_ne_nil (c : SessionId) (l : List SessionId) : insertClient c l ≠ [] := by
  unfold insertClient
  by_cases h : c ∈ l
  · simp only [if_pos h]
    exact List.ne_nil_of_mem h
  · simp [if_neg h]

theorem forwardRegistry_nonempty (ch d : String)
    (entries : List (String × SubscriptionInfo)) :
    ∀ free : List (SessionId × Nat), (∀ p ∈ entries, (p.2 : SubscriptionInfo).clients ≠ []) →
      ∀ p ∈ (forwardRegistry ch d free entries).2, (p.2 : SubscriptionInfo).clients ≠ [] := by
  induction entries with
  | nil =>
    intro free _ p hp
    simp [forwardRegistry] at hp
  | cons e rest ih =>
    obtain ⟨k, info⟩ := e
    intro free hinv p hp
    have hinvRest : ∀ p ∈ rest, (p.2 : SubscriptionInfo).clients ≠ [] := by
      intro q hq
      exact hinv q (List.mem_cons_of_mem _ hq)
    by_cases hty : info.subscription.type = ch
    · by_cases hk : (attemptDeliver free info.clients).2.isEmpty = true
      · simp only [forwardRegistry, if_pos hty, hk, if_pos] at hp
        exact ih _ hinvRest p hp
      · simp only [forwardRegistry, if_pos hty, hk, Bool.false_eq_true, if_false] at hp
        rcases List.mem_cons.mp hp with he | hm
        · subst he
          simpa [List.isEmpty_iff] using hk
        · exact ih _ hinvRest p hm
    · simp only [forwardRegistry, if_neg hty] at hp
      rcases List.mem_cons.mp hp with he | hm
      · subst he
        exact hinv (k, info) (List.mem_cons_self _ _)
      · exact ih _ hinvRest p hm

theorem noEmptyEntries_handleSubscribe (st : ProxyState) (c : SessionId)
    (sub : Option SubscriptionRequest) (ok : Bool) (h : noEmptyEntries st) :
    noEmptyEntries (handleSubscribe c sub ok st).1 := by
  match sub with
  | none => exact h
  | some sub =>
    simp only [handleSubscribe]
    cases hl : lookupA st.registry (createSubscriptionKey sub) with
    | some info =>
      intro p hp
      simp only at hp
      rcases mem_insertA hp with he | hm
      · subst he
        exact insertClient_ne_nil c info.clients
      · exact h p hm
    | none =>
      by_cases hmode : st.useLocalNode = true ∨ ok = true
      · intro p hp
        simp only [if_pos hmode] at hp
        rcases List.mem_append.mp hp with hm | he
        · exact h p hm
        · simp only [List.mem_singleton] at he
          subst he
          simp
      · intro p hp
        simp only [if_neg hmode] at hp
        exact h p hp

theorem noEmptyEntries_handleUnsubscribe (st : ProxyState) (c : SessionId)
    (sub : Option SubscriptionRequest) (h : noEmptyEntries st) :
    noEmptyEntries (handleUnsubscribe c sub st).1 := by
  match sub with
  | none => exact h
  | some sub =>
    simp only [handleUnsubscribe]
    cases hl : lookupA st.registry (createSubscriptionKey sub) with
    | none => exact h
    | some info =>
      by_cases he : (info.clients.erase c).isEmpty = true
      · intro p hp
        simp only [he, if_pos] at hp
        exact h p (mem_eraseKey hp)
      · intro p hp
        simp only [he, Bool.false_eq_true, if_false] at hp
        rcases mem_insertA hp with hpe | hm
        · subst hpe
          simpa [List.isEmpty_iff] using he
        · exact h p hm

theorem noEmptyEntries_step (op : ProxyOp) (st : ProxyState) (h : noEmptyEntries st) :
    noEmptyEntries (stepOp op st) := by
  match op with
  | .register c =>
    simp only [stepOp, hubRegister]
    by_cases hc : c ∈ st.hubClients
    · simpa [hc] using h
    · simpa [hc] using h
  | .unregister c =>
    simp only [stepOp, hubUnregister]
    by_cases hc : c ∈ st.hubClients
    · simpa [hc] using h
    · simpa [hc] using h
  | .publish ch d =>
    intro p hp
    exact forwardRegistry_nonempty ch d st.registry st.sendFree h p hp
  | .clientMsg c f ok pr =>
    match f with
    | .malformed => exact h
    | .frame m sub hr id =>
      simp only [stepOp, handleClientMessage]
      by_cases h1 : m = "subscribe"
      · simp only [if_pos h1]
        exact noEmptyEntries_handleSubscribe st c sub ok h
      · by_cases h2 : m = "unsubscribe"
        · simp only [if_neg h1, if_pos h2]
          exact noEmptyEntries_handleUnsubscribe st c sub h
        · by_cases h3 : m = "post"
          · simp only [if_neg h1, if_neg h2, if_pos h3, handlePost]
            match id, hr with
            | some i, true =>
              by_cases hlocal : st.useLocalNode = true
              · simpa [hlocal] using h
              · simpa [hlocal] using h
            | some i, false => exact h
            | none, true => exact h
            | none, false => exact h
          · simpa [h1, h2, h3] using h

theorem noEmptyEntries_runOps (ops : List ProxyOp) :
    ∀ st : ProxyState, noEmptyEntries st → noEmptyEntries (runOps ops st) := by
  induction ops with
  | nil => intro st h; exact h
  | cons op rest ih =>
    intro st h
    exact ih (stepOp op st) (noEmptyEntries_step op st h)

/-- C3 (amended): session teardown via the hub's unregister path closes
the session's outbound queue and removes it from the active set, but it
does not remove the session from any registry entry (the hub cannot see
the proxy registry; stale sessions are only evicted later by an
unsubscribe or by a failed delivery during a publish). The emptiness
invariant itself does hold: in every state reachable from a fresh proxy
by any sequence of operations, no registry entry with an empty session
set persists, because every operation that can empty an entry's set
deletes the entry in the same step. -/
theorem unregister_registry_invariant (st : ProxyState) (c : SessionId)
    (hc : c ∈ st.hubClients) (hnd : st.hubClients.Nodup) :
    (hubUnregister c st).registry = st.registry
    ∧ c ∈ (hubUnregister c st).closedQueues
    ∧ c ∉ (hubUnregister c st).hubClients
    ∧ (∀ (b : Bool) (ops : List ProxyOp), noEmptyEntries (runOps ops (initState b))) := by
  refine ⟨?_, ?_, ?_, ?_⟩
  · simp [hubUnregister, hc]
  · simp [hubUnregister, hc]
  · simp only [hubUnregister, if_pos hc]
    intro hmem
    exact ((List.Nodup.mem_erase_iff hnd).mp hmem).1 rfl
  · intro b ops
    refine noEmptyEntries_runOps ops (initState b) ?_
    intro p hp
    simp [initState] at hp

/-- C3 witness: unregistering session 7 from the populated state. -/
theorem unregister_registry_invariant_witness :
    (hubUnregister 7 fullQueueState).registry = fullQueueState.registry
    ∧ (7 : SessionId) ∈ (hubUnregister 7 fullQueueState).closedQueues
    ∧ (7 : SessionId) ∉ (hubUnregister 7 fullQueueState).hubClients
    ∧ (∀ (b : Bool) (ops : List ProxyOp), noEmptyEntries (runOps ops (initState b))) :=
  unregister_registry_invariant fullQueueState 7 (by decide) (by decide)

/-- C3 counterexample: unregistering session 7 closes its queue and drops
it from the active set, yet the registry entry `trades-ETH` still lists
session 7 — unregister does not remove the session from the registry
entries it belongs to. -/
theorem unregister_registry_cex :
    (7 : SessionId) ∈ fullQueueState.hubClients
    ∧ (hubUnregister 7 fullQueueState).closedQueues = [7]
    ∧ lookupA (hubUnregister 7 fullQueueState).registry "trades-ETH"
        = some { subscription := ethTradesSub, clients := [7], lastMessage := none } := by
  refine ⟨by decide, by decide, by decide⟩

/-! ## C2 -/

theorem splitOnNl_ne_nil (l : List Char) : splitOnNl l ≠ [] := by
  cases l with
  | nil => simp [splitOnNl]
  | cons c cs =>
    simp only [splitOnNl]
    cases h : splitOnNl cs with
    | nil => simp
    | cons a as => by_cases hc : c = '\n' <;> simp [hc]

theorem splitOnNl_sum (l : List Char) :
    ((splitOnNl l).map List.length).sum + (splitOnNl l).length = l.length + 1 := by
  induction l with
  | nil => rfl
  | cons c cs ih =>
    simp only [splitOnNl]
    cases h : splitOnNl cs with
    | nil => exact absurd h (splitOnNl_ne_nil cs)
    | cons a as =>
      rw [h] at ih
      simp only [List.map_cons, List.sum_cons, List.length_cons] at ih
      by_cases hc : c = '\n'
      · simp only [hc, if_pos]
        simp only [List.map_cons, List.sum_cons, List.length_cons, List.length_nil]
        omega
      · simp only [hc, if_neg, not_false_iff]
        simp only [List.map_cons, List.sum_cons, List.length_cons]
        omega

theorem trimSpace_length_le (l : List Char) : (trimSpace l).length ≤ l.length := by
  unfold trimSpace
  calc ((l.dropWhile isSpaceChar).reverse.dropWhile isSpaceChar).reverse.length
      = ((l.dropWhile isSpaceChar).reverse.dropWhile isSpaceChar).length := by
        rw [List.length_reverse]
    _ ≤ (l.dropWhile isSpaceChar).reverse.length :=
        List.Sublist.length_le (List.dropWhile_sublist _)
    _ = (l.dropWhile isSpaceChar).length := by rw [List.length_reverse]
    _ ≤ l.length := List.Sublist.length_le (List.dropWhile_sublist _)

theorem posLoop_cons_ne (parses : List Char → Bool) (sk lo : Bool) (a : List Char)
    (R : List (List Char)) (h : R ≠ []) :
    posLoop parses sk lo (a :: R)
      = (if (trimSpace a).isEmpty then 0 else (trimSpace a).length + 1)
        + posLoop parses sk lo R := by
  cases R with
  | nil => exact absurd rfl h
  | cons b bs => rfl

theorem posLoop_single_le (parses : List Char → Bool) (sk lo : Bool) (last : List Char) :
    posLoop parses sk lo [last] ≤ (trimSpace last).length := by
  simp only [posLoop]
  split_ifs <;> simp

theorem posLoop_single_not_parsed (parses : List Char → Bool) (sk lo : Bool)
    (last : List Char) (hp : parses (trimSpace last) = false) :
    posLoop parses sk lo [last] = 0 := by
  simp only [posLoop, hp, Bool.false_and, Bool.false_eq_true, if_false]
  split_ifs <;> rfl

theorem posLoop_append_le (parses : List Char → Bool) (sk lo : Bool) (last : List Char) :
    ∀ most : List (List Char),
      posLoop parses sk lo (most ++ [last]) + 1
        ≤ ((most ++ [last]).map List.length).sum + (most ++ [last]).length := by
  intro most
  induction most with
  | nil =>
    simp only [List.nil_append, List.map_cons, List.map_nil, List.sum_cons, List.sum_nil,
      List.length_cons, List.length_nil]
    have h1 := posLoop_single_le parses sk lo last
    have h2 := trimSpace_length_le last
    omega
  | cons a most ih =>
    rw [List.cons_append, posLoop_cons_ne parses sk lo a _ (by simp)]
    have ha : (if (trimSpace a).isEmpty then 0 else (trimSpace a).length + 1) ≤ a.length + 1 := by
      have := trimSpace_length_le a
      split_ifs <;> omega
    simp only [List.cons_append, List.map_cons, List.sum_cons, List.length_cons] at ih ⊢
    omega

theorem posLoop_append_not_parsed (parses : List Char → Bool) (sk lo : Bool)
    (last : List Char) (hp : parses (trimSpace last) = false) :
    ∀ most : List (List Char),
      posLoop parses sk lo (most ++ [last]) + last.length + 1
        ≤ ((most ++ [last]).map List.length).sum + (most ++ [last]).length := by
  intro most
  induction most with
  | nil =>
    simp only [List.nil_append, List.map_cons, List.map_nil, List.sum_cons, List.sum_nil,
      List.length_cons, List.length_nil, posLoop_single_not_parsed parses sk lo last hp]
    omega
  | cons a most ih =>
    rw [List.cons_append, posLoop_cons_ne parses sk lo a _ (by simp)]
    have ha : (if (trimSpace a).isEmpty then 0 else (trimSpace a).length + 1) ≤ a.length + 1 := by
      have := trimSpace_length_le a
      split_ifs <;> omega
    simp only [List.cons_append, List.map_cons, List.sum_cons, List.length_cons] at ih ⊢
    omega

theorem posLoop_clean (parses : List Char → Bool) (sk lo : Bool) :
    ∀ most : List (List Char), (∀ l ∈ most, trimSpace l = l ∧ l ≠ []) →
      posLoop parses sk lo (most ++ [([] : List Char)])
        = (most.map List.length).sum + most.length := by
  intro most
  induction most with
  | nil =>
    intro _
    simp [posLoop, trimSpace]
  | cons a most ih =>
    intro h
    have ha := h a (List.mem_cons_self _ _)
    rw [List.cons_append, posLoop_cons_ne parses sk lo a _ (by simp)]
    rw [ha.1, if_neg (by simpa [List.isEmpty_iff] using ha.2)]
    rw [ih (fun l hl => h l (List.mem_cons_of_mem _ hl))]
    simp only [List.map_cons, List.sum_cons, List.length_cons]
    omega

theorem splitOnNl_append_newline (xs : List Char) :
    splitOnNl (xs ++ ['\n']) = splitOnNl xs ++ [[]] := by
  induction xs with
  | nil => rfl
  | cons c cs ih =>
    cases h : splitOnNl cs with
    | nil => exact absurd h (splitOnNl_ne_nil cs)
    | cons a as => by_cases hc : c = '\n' <;> simp [splitOnNl, ih, h, hc]

theorem readBlockFilePos_ge (parses : List Char → Bool) (fileSize fromPos : Nat)
    (content : List Char) :
    fromPos ≤ readBlockFilePos parses fileSize fromPos content := by
  unfold readBlockFilePos
  split_ifs
  · exact le_refl _
  · exact Nat.le_add_right _ _

theorem readBlockFilePos_le (parses : List Char → Bool) (fileSize fromPos : Nat)
    (content : List Char) (most : List (List Char)) (last : List Char)
    (hdec : splitOnNl content = most ++ [last]) :
    readBlockFilePos parses fileSize fromPos content ≤ fromPos + content.length := by
  simp only [readBlockFilePos]
  split_ifs
  · exact Nat.le_add_right _ _
  · rw [hdec]
    have hb := posLoop_append_le parses
      (decide (content.length = min (fileSize - fromPos) readCap)
        && decide (fromPos + content.length < fileSize))
      (decide (content.length < min (fileSize - fromPos) readCap)
        || decide (fileSize ≤ fromPos + content.length)) last most
    have hs := splitOnNl_sum content
    rw [hdec] at hs
    omega

theorem readBlockFilePos_tail_not_consumed (parses : List Char → Bool)
    (fileSize fromPos : Nat) (content : List Char)
    (most : List (List Char)) (last : List Char)
    (hdec : splitOnNl content = most ++ [last])
    (hp : parses (trimSpace last) = false) :
    readBlockFilePos parses fileSize fromPos content + last.length
      ≤ fromPos + content.length := by
  have hs := splitOnNl_sum content
  rw [hdec] at hs
  simp only [readBlockFilePos]
  split_ifs
  · have : last.length ≤ content.length := by
      simp only [List.map_append, List.sum_append, List.length_append, List.map_cons,
        List.sum_cons, List.length_cons, List.map_nil, List.sum_nil, List.length_nil] at hs
      omega
    omega
  · rw [hdec]
    have hb := posLoop_append_not_parsed parses
      (decide (content.length = min (fileSize - fromPos) readCap)
        && decide (fromPos + content.length < fileSize))
      (decide (content.length < min (fileSize - fromPos) readCap)
        || decide (fileSize ≤ fromPos + content.length)) last hp most
    omega

theorem readBlockFilePos_clean (parses : List Char → Bool) (fileSize fromPos : Nat)
    (body : List Char)
    (hlines : ∀ l ∈ splitOnNl body, trimSpace l = l ∧ l ≠ [])
    (hpos : fromPos < fileSize) :
    readBlockFilePos parses fileSize fromPos (body ++ ['\n'])
      = fromPos + (body ++ ['\n']).length := by
  simp only [readBlockFilePos]
  rw [if_neg (by omega)]
  rw [splitOnNl_append_newline body]
  rw [posLoop_clean _ _ _ (splitOnNl body) hlines]
  have hs := splitOnNl_sum body
  simp only [List.length_append, List.length_cons, List.length_nil]
  omega

theorem scanFileStep_mono (parses : List Char → Bool) (stored : Option Nat)
    (sz : Nat) (content : List Char) :
    stored.getD 0 ≤ (scanFileStep parses stored sz content).getD 0 := by
  simp only [scanFileStep]
  split_ifs
  · exact le_refl _
  · simpa using readBlockFilePos_ge parses sz (stored.getD 0) content
  · exact le_refl _

theorem scanTicks_mono (parses : List Char → Bool) (ticks : List (Nat × List Char)) :
    ∀ stored : Option Nat, stored.getD 0 ≤ (scanTicks parses stored ticks).getD 0 := by
  induction ticks with
  | nil => intro stored; exact le_refl _
  | cons t rest ih =>
    intro stored
    obtain ⟨sz, content⟩ := t
    calc stored.getD 0 ≤ (scanFileStep parses stored sz content).getD 0 :=
          scanFileStep_mono parses stored sz content
      _ ≤ _ := ih _

/-- C2 (amended): the stored offset never moves backwards (within a read
and across any sequence of scan ticks) and never past the bytes actually
read; a trailing line that fails to parse never advances the offset past
the last newline-terminated line (its bytes stay beyond the offset and
are re-read next tick); a chunk of fully newline-terminated,
whitespace-free lines advances the offset by the whole chunk. The
original claim's "only past fully newline-terminated lines" fails in one
case: a trailing unterminated line that parses as a valid block is also
consumed (see the counterexample). -/
theorem block_read_offsets (parses : List Char → Bool) (fileSize fromPos : Nat)
    (content : List Char) (stored : Option Nat) (ticks : List (Nat × List Char))
    (most : List (List Char)) (last : List Char)
    (hdec : splitOnNl content = most ++ [last])
    (hfail : parses (trimSpace last) = false) :
    fromPos ≤ readBlockFilePos parses fileSize fromPos content
    ∧ readBlockFilePos parses fileSize fromPos content ≤ fromPos + content.length
    ∧ readBlockFilePos parses fileSize fromPos content + last.length
        ≤ fromPos + content.length
    ∧ stored.getD 0 ≤ (scanTicks parses stored ticks).getD 0
    ∧ (∀ (oracle : List Char → Bool) (sz p : Nat) (body : List Char),
        (∀ l ∈ splitOnNl body, trimSpace l = l ∧ l ≠ []) → p < sz →
        readBlockFilePos oracle sz p (body ++ ['\n']) = p + (body ++ ['\n']).length) := by
  refine ⟨readBlockFilePos_ge parses fileSize fromPos content,
    readBlockFilePos_le parses fileSize fromPos content most last hdec,
    readBlockFilePos_tail_not_consumed parses fileSize fromPos content most last hdec hfail,
    scanTicks_mono parses ticks stored,
    fun oracle sz p body hl hp => readBlockFilePos_clean oracle sz p body hl hp⟩

/-- C2 witness: the spec's two-chunk scenario. The file first holds
`A\nB` (the second line is mid-write and does not parse): the scan leaves
the partial `B` beyond the offset (the offset stays at most 2, the end of
the last terminated line), and across the two ticks — the second after
the writer completes the file to `A\nBrest\n` — the stored offset never
decreases. -/
theorem block_read_offsets_witness :
    (0 : Nat) ≤ readBlockFilePos (fun t => t == ['A'] || t == ['B', 'r', 'e', 's', 't']) 3 0
        ['A', '\n', 'B']
    ∧ readBlockFilePos (fun t => t == ['A'] || t == ['B', 'r', 'e', 's', 't']) 3 0
        ['A', '\n', 'B'] ≤ 0 + (['A', '\n', 'B'] : List Char).length
    ∧ readBlockFilePos (fun t => t == ['A'] || t == ['B', 'r', 'e', 's', 't']) 3 0
        ['A', '\n', 'B'] + (['B'] : List Char).length
        ≤ 0 + (['A', '\n', 'B'] : List Char).length
    ∧ (some 0 : Option Nat).getD 0 ≤ (scanTicks
        (fun t => t == ['A'] || t == ['B', 'r', 'e', 's', 't']) (some 0)
        [(3, ['A', '\n', 'B']), (8, ['B', 'r', 'e', 's', 't', '\n'])]).getD 0
    ∧ (∀ (oracle : List Char → Bool) (sz p : Nat) (body : List Char),
        (∀ l ∈ splitOnNl body, trimSpace l = l ∧ l ≠ []) → p < sz →
        readBlockFilePos oracle sz p (body ++ ['\n']) = p + (body ++ ['\n']).length) :=
  block_read_offsets (fun t => t == ['A'] || t == ['B', 'r', 'e', 's', 't']) 3 0
    ['A', '\n', 'B'] (some 0) [(3, ['A', '\n', 'B']), (8, ['B', 'r', 'e', 's', 't', '\n'])]
    [['A']] ['B'] (by decide) (by decide)

/-- C2 counterexample: a 1-byte file holding the single character `X`
with no terminating newline, whose line nevertheless parses as a valid
block (a record fully written except for its newline). The scan advances
the stored offset from 0 to 1, i.e. past a line that is not
newline-terminated — refuting "the offset advances only past fully
newline-terminated lines". -/
theorem block_read_offsets_cex :
    ('\n' ∉ (['X'] : List Char))
    ∧ readBlockFilePos (fun _ => true) 1 0 ['X'] = 1
    ∧ scanFileStep (fun _ => true) (some 0) 1 ['X'] = some 1 := by
  refine ⟨by decide, by decide, by decide⟩

end HL
